import Mathlib

/-!
Verification of the IEM crossover simulator's core numerical engine.

The development shallowly embeds the simulation engine of
`iem-crossover-simulator` (the corrected, topologically-aware
implementation: complex arithmetic kernel, frequency-domain interpolator,
ear-simulator impedance model, crossover network solver, and the sweep
aggregation stages) and proves the engine's stated correctness properties.

Modelling conventions:
* JavaScript numbers are modelled as exact elements of a linear ordered
  field (`ℚ` where the code is purely rational, `ℝ` where it uses
  `Math.log10` / `Math.sqrt` / trigonometric functions).  Exact arithmetic
  has no `NaN`/`Infinity`; the code's explicit epsilon guards are embedded
  verbatim.
* `Array.prototype.sort` with the comparator `(a, b) => b.order - a.order`
  is a stable descending sort on the `order` key; it is modelled with the
  stable `List.insertionSort`.
* JavaScript `===` between a function-valued variable and a fresh arrow
  function literal is reference equality of two distinct objects and is
  therefore `false`; that fact is embedded as the constant
  `isSplOrImpedanceGetter` below, with the dead branch kept verbatim.
-/

namespace IEMSim

/-- The guard constant `EPSILON = 1e-12` from the source. -/
def EPSILON (K : Type) [LinearOrderedField K] : K := 1 / 10 ^ 12

/-- A JavaScript `{real, imag}` complex-value record. -/
structure ComplexValue (K : Type) where
  real : K
  imag : K
deriving DecidableEq, Repr

/-- `complexAdd` from the source. -/
def complexAdd {K : Type} [LinearOrderedField K] (a b : ComplexValue K) :
    ComplexValue K :=
  ⟨a.real + b.real, a.imag + b.imag⟩

/-- `complexMultiply` from the source. -/
def complexMultiply {K : Type} [LinearOrderedField K] (a b : ComplexValue K) :
    ComplexValue K :=
  ⟨a.real * b.real - a.imag * b.imag, a.real * b.imag + a.imag * b.real⟩

/-- `complexDivide` from the source: the denominator `|b|²` is floored at
`EPSILON`, returning `{0, 0}` in the degenerate case. -/
def complexDivide {K : Type} [LinearOrderedField K] (a b : ComplexValue K) :
    ComplexValue K :=
  let denom := b.real * b.real + b.imag * b.imag
  if |denom| < EPSILON K then ⟨0, 0⟩
  else
    ⟨(a.real * b.real + a.imag * b.imag) / denom,
     (a.imag * b.real - a.real * b.imag) / denom⟩

/-- `complexMagnitude` from the source (`Math.sqrt`, hence over `ℝ`). -/
noncomputable def complexMagnitude (z : ComplexValue ℝ) : ℝ :=
  Real.sqrt (z.real * z.real + z.imag * z.imag)

/-- `complexPhase` from the source: `Math.atan2(imag, real) * 180 / π`,
modelled with the principal argument of the corresponding complex number. -/
noncomputable def complexPhase (z : ComplexValue ℝ) : ℝ :=
  (Complex.arg ⟨z.real, z.imag⟩) * 180 / Real.pi

/-- `parallelImpedance` from the source: `(z1 * z2) / (z1 + z2)`. -/
def parallelImpedance {K : Type} [LinearOrderedField K]
    (z1 z2 : ComplexValue K) : ComplexValue K :=
  complexDivide (complexMultiply z1 z2) (complexAdd z1 z2)

/-! ## Crossover elements and the network solver -/

/-- The kinds of crossover element supported by the simulator. -/
inductive ElementKind
  | capacitor
  | inductor
  | resistor
deriving DecidableEq, Repr

/-- A crossover element record: kind, nominal value (µF / mH / Ω),
parasitic resistance (`esr` for capacitors, `dcr` for inductors),
series/parallel topology flag, and the integer traversal-order key. -/
structure CrossoverElement (K : Type) where
  kind : ElementKind
  value : K
  esr : K
  dcr : K
  series : Bool
  order : Int
deriving DecidableEq, Repr

/-- The element-impedance computation inside the solver loop: capacitor
`Z = esr + 1/(jω·value·1e-6)` with the DC guard on `ω`, inductor
`Z = dcr + jω·value·1e-3`, resistor `Z = value`. -/
def elementImpedance {K : Type} [LinearOrderedField K] (omega : K)
    (e : CrossoverElement K) : ComplexValue K :=
  match e.kind with
  | ElementKind.capacitor =>
      let Zcap : ComplexValue K :=
        ⟨0, if EPSILON K < omega then -1 / (omega * e.value * (1 / 10 ^ 6))
            else -1 / (EPSILON K * e.value * (1 / 10 ^ 6))⟩
      complexAdd Zcap ⟨e.esr, 0⟩
  | ElementKind.inductor =>
      complexAdd ⟨0, omega * e.value * (1 / 10 ^ 3)⟩ ⟨e.dcr, 0⟩
  | ElementKind.resistor => ⟨e.value, 0⟩

/-- One iteration of the solver loop.  The state is the pair
`(Z_current, H_current)`.  A series element first folds the voltage
divider `Z / (Z_element + Z)` into `H`, then adds its impedance to `Z`;
a parallel element leaves `H` unchanged and shunts `Z`. -/
def applyElement {K : Type} [LinearOrderedField K] (omega : K)
    (state : ComplexValue K × ComplexValue K) (e : CrossoverElement K) :
    ComplexValue K × ComplexValue K :=
  let Zelement := elementImpedance omega e
  if e.series then
    (complexAdd state.1 Zelement,
     complexMultiply state.2 (complexDivide state.1 (complexAdd Zelement state.1)))
  else
    (parallelImpedance state.1 Zelement, state.2)

/-- The solver's stable descending sort on the `order` key
(`[...elements].sort((a, b) => b.order - a.order)`): the element nearest
the driver (largest key) comes first. -/
def sortDescendingByOrder {K : Type} [LinearOrderedField K]
    (elements : List (CrossoverElement K)) : List (CrossoverElement K) :=
  List.insertionSort (fun a b => b.order ≤ a.order) elements

/-- The core of `calculateCrossoverImpedanceAndTransfer`: starting from
`Z = Z_driver`, `H = 1`, walk the chain from the driver outward
(descending order key) and return the final `(Z_total, H)`. -/
def crossoverZH {K : Type} [LinearOrderedField K] (omega : K)
    (elements : List (CrossoverElement K)) (Zdriver : ComplexValue K) :
    ComplexValue K × ComplexValue K :=
  (sortDescendingByOrder elements).foldl (applyElement omega) (Zdriver, ⟨1, 0⟩)

/-- Modelled from the spec: the order-of-traversal regression scenario in
which the same elements are processed farthest-to-nearest (ascending order
key) instead of the solver's driver-outward descending order. -/
def crossoverZHReversedOrder {K : Type} [LinearOrderedField K] (omega : K)
    (elements : List (CrossoverElement K)) (Zdriver : ComplexValue K) :
    ComplexValue K × ComplexValue K :=
  (List.insertionSort (fun a b => a.order ≤ b.order) elements).foldl
    (applyElement omega) (Zdriver, ⟨1, 0⟩)

/-! ## The frequency-domain interpolator -/

/-- A parsed measurement point.  The source stores `{freq, spl, phase}`
records for FRD data and `{freq, impedance, phase}` records for ZMA data;
the embedding merges them into one record (a field missing from a given
file kind is simply never selected).  Frequencies are rational (the sweep
grid and file data are finite decimal numbers); measured values live in
`ℝ`. -/
structure DataPoint where
  freq : ℚ
  spl : ℝ
  impedance : ℝ
  phase : ℝ

/-- The three getter functions the source passes to
`interpolateFrequencyData`: `(p) => p.spl`, `(p) => p.impedance || 8` and
`(p) => p.phase || 0`. -/
inductive Getter
  | spl
  | impedanceOr8
  | phaseOr0
deriving DecidableEq, Repr

/-- Evaluate a getter on a point.  JavaScript `p.impedance || 8` yields `8`
when the stored impedance is falsy (`0`); `p.phase || 0` is the identity on
numbers. -/
noncomputable def selectValue (g : Getter) (p : DataPoint) : ℝ :=
  match g with
  | Getter.spl => p.spl
  | Getter.impedanceOr8 => if p.impedance = 0 then 8 else p.impedance
  | Getter.phaseOr0 => p.phase

/-- The source guards its log-of-value interpolation branch with
`getValue === ((p) => p.spl) || getValue === ((p) => p.impedance)`.
JavaScript `===` on functions is reference equality, and both right-hand
operands are fresh arrow-function objects allocated at the comparison
site, so the whole test evaluates to `false` for every argument. -/
def isSplOrImpedanceGetter (_g : Getter) : Bool := false

/-- The bracket-search loop of `interpolateFrequencyData`: walk the list
once, remembering the last index whose frequency is `≤ target`
(`lowerIdx`) and breaking at the first index whose frequency is
`≥ target` (`upperIdx`).  Index and point are carried together. -/
def bracketSearch (targetFreq : ℚ) :
    List DataPoint → Nat → Option (Nat × DataPoint) →
    Option (Nat × DataPoint) × Option (Nat × DataPoint)
  | [], _, lower => (lower, none)
  | p :: rest, i, lower =>
    let lower' := if p.freq ≤ targetFreq then some (i, p) else lower
    if targetFreq ≤ p.freq then (lower', some (i, p))
    else bracketSearch targetFreq rest (i + 1) lower'

/-- `interpolateFrequencyData` from the source.  `null`-or-empty input is
modelled as the empty list and returns `none`.  The `(none, none)` bracket
outcome is unreachable for non-empty data (the source would crash there;
totality is proved below).  The `typeof ... === 'number'` test is always
true in this model, and the log-of-value branch is kept verbatim behind
the always-false getter-identity test `isSplOrImpedanceGetter`. -/
noncomputable def interpolateFrequencyData (data : List DataPoint)
    (targetFreq : ℚ) (getValue : Getter) : Option ℝ :=
  if data.isEmpty then none
  else
    match bracketSearch targetFreq data 0 none with
    | (none, none) => none
    | (none, some (_, upper)) => some (selectValue getValue upper)
    | (some (_, lower), none) => some (selectValue getValue lower)
    | (some (li, lower), some (ui, upper)) =>
      if li = ui then some (selectValue getValue lower)
      else if upper.freq - lower.freq < EPSILON ℚ then
        some (selectValue getValue lower)
      else
        let logLowerFreq := Real.logb 10 (lower.freq : ℝ)
        let logUpperFreq := Real.logb 10 (upper.freq : ℝ)
        let freqRange := logUpperFreq - logLowerFreq
        if freqRange < EPSILON ℝ then some (selectValue getValue lower)
        else
          let t := (Real.logb 10 (targetFreq : ℝ) - logLowerFreq) / freqRange
          let lowerVal := selectValue getValue lower
          let upperVal := selectValue getValue upper
          if isSplOrImpedanceGetter getValue then
            if lowerVal ≤ EPSILON ℝ ∨ upperVal ≤ EPSILON ℝ then
              some (lowerVal + (upperVal - lowerVal) * t)
            else
              some ((10 : ℝ) ^ (Real.logb 10 lowerVal +
                (Real.logb 10 upperVal - Real.logb 10 lowerVal) * t))
          else
            some (lowerVal + (upperVal - lowerVal) * t)

/-! ## The ear-simulator impedance model -/

/-- The ear-simulator configuration state. -/
structure EarSimulatorConfig where
  enabled : Bool
  canalVolume : ℝ
  canalLength : ℝ
  drumCompliance : ℝ
  leakage : ℝ

/-- `parallelRLC` from the source: floor `R`, `L`, `C` at `EPSILON`, then
combine by admittance summation `Y = 1/R + 1/(jωL) (with the +EPSILON
guard in the denominator) + jωC` and return `1 / Y` through the guarded
division.  The source also computes series impedances `Z_R`, `Z_L`, `Z_C`
into dead local variables; they are omitted here. -/
noncomputable def parallelRLC (R L C omega : ℝ) : ComplexValue ℝ :=
  let R' := if R < EPSILON ℝ then EPSILON ℝ else R
  let L' := if L < EPSILON ℝ then EPSILON ℝ else L
  let C' := if C < EPSILON ℝ then EPSILON ℝ else C
  let Y_R : ComplexValue ℝ := ⟨1 / R', 0⟩
  let Y_L : ComplexValue ℝ := ⟨0, -1 / (omega * L' + EPSILON ℝ)⟩
  let Y_C : ComplexValue ℝ := ⟨0, omega * C'⟩
  complexDivide ⟨1, 0⟩ (complexAdd Y_R (complexAdd Y_L Y_C))

/-- The pre-calculated reference acoustic impedance magnitude at 200 Hz. -/
noncomputable def Z_EAR_REF_MAG : ℝ := 163.5

/-- `getEarSimulatorImpedance` from the source: a fixed resistive
reference when disabled; otherwise the IEC 60318-4 equivalent circuit,
one series R–L branch plus two `parallelRLC` branches, with the user
scalings applied and an optional parallel leakage resistor. -/
noncomputable def getEarSimulatorImpedance (ear : EarSimulatorConfig)
    (freq : ℚ) : ComplexValue ℝ :=
  if ear.enabled = false then ⟨Z_EAR_REF_MAG, 0⟩
  else
    let omega : ℝ := 2 * Real.pi * (freq : ℝ)
    let L0_scaled : ℝ := 0.0076 * (ear.canalLength / 1.2)
    let C1_scaled : ℝ := 200e-9 * (ear.canalVolume / 1.0)
    let C2_scaled : ℝ := 30e-9 * ear.drumCompliance
    let Z_branch0 : ComplexValue ℝ := ⟨155.8, omega * L0_scaled⟩
    let Z_branch1 := parallelRLC 292 0.021 C1_scaled omega
    let Z_branch2 := parallelRLC 1437 0.106 C2_scaled omega
    let Zear := complexAdd Z_branch0 (complexAdd Z_branch1 Z_branch2)
    if 0 < ear.leakage then
      parallelImpedance Zear ⟨1e9 / (1 + ear.leakage * 100), 0⟩
    else Zear

/-! ## The full crossover calculation -/

/-- Step 1 of `calculateCrossoverImpedanceAndTransfer`: the driver's
electrical impedance, interpolated from its ZMA series (default 8 Ω
resistive when the series is absent, empty, or yields no value). -/
noncomputable def computeZdriver
    (driverImpedanceData : Option (List DataPoint)) (freq : ℚ) :
    ComplexValue ℝ :=
  match driverImpedanceData with
  | none => ⟨8, 0⟩
  | some data =>
    if data.isEmpty then ⟨8, 0⟩
    else
      match interpolateFrequencyData data freq Getter.impedanceOr8,
            interpolateFrequencyData data freq Getter.phaseOr0 with
      | some impedanceMag, some phaseDeg =>
        let phaseRad := phaseDeg * Real.pi / 180
        ⟨impedanceMag * Real.cos phaseRad, impedanceMag * Real.sin phaseRad⟩
      | _, _ => ⟨8, 0⟩

/-- The angular frequency `ω = 2π·freq` used by the solver. -/
noncomputable def solverOmega (freq : ℚ) : ℝ := 2 * Real.pi * (freq : ℝ)

/-- The final electrical impedance `Z_total` of the driver-plus-crossover
network at one frequency. -/
noncomputable def electricalZ (freq : ℚ)
    (elements : List (CrossoverElement ℝ))
    (zma : Option (List DataPoint)) : ComplexValue ℝ :=
  (crossoverZH (solverOmega freq) elements (computeZdriver zma freq)).1

/-- The final electrical transfer function `H = V_driver / V_source` at
one frequency. -/
noncomputable def electricalH (freq : ℚ)
    (elements : List (CrossoverElement ℝ))
    (zma : Option (List DataPoint)) : ComplexValue ℝ :=
  (crossoverZH (solverOmega freq) elements (computeZdriver zma freq)).2

/-- `electricalGainDb = 20·log10(|H| + EPSILON)` from the source. -/
noncomputable def electricalGainDb (freq : ℚ)
    (elements : List (CrossoverElement ℝ))
    (zma : Option (List DataPoint)) : ℝ :=
  20 * Real.logb 10 (complexMagnitude (electricalH freq elements zma) + EPSILON ℝ)

/-- `voltageGainDb = 20·log10(sourceVoltage + EPSILON)` from the source. -/
noncomputable def voltageGainDb (sourceVoltage : ℝ) : ℝ :=
  20 * Real.logb 10 (sourceVoltage + EPSILON ℝ)

/-- The acoustic ear-coupler gain term
`20·log10(|Z_ear| / Z_EAR_REF_MAG + EPSILON)` from the source. -/
noncomputable def earBoostTermDb (ear : EarSimulatorConfig) (freq : ℚ) : ℝ :=
  20 * Real.logb 10
    (complexMagnitude (getEarSimulatorImpedance ear freq) / Z_EAR_REF_MAG
      + EPSILON ℝ)

/-- The record returned by `calculateCrossoverImpedanceAndTransfer`. -/
structure CrossoverResult where
  impedanceMagnitude : ℝ
  impedancePhase : ℝ
  totalGainDb : ℝ
  electricalPhaseDeg : ℝ

/-- `calculateCrossoverImpedanceAndTransfer` from the source: driver
impedance from the ZMA series, the driver-outward solver loop, then the
electrical, source-voltage and (conditional) acoustic gain terms. -/
noncomputable def calculateCrossoverImpedanceAndTransfer (freq : ℚ)
    (elements : List (CrossoverElement ℝ)) (zma : Option (List DataPoint))
    (sourceVoltage : ℝ) (frdCompensated : Bool) (ear : EarSimulatorConfig) :
    CrossoverResult :=
  let earBoostDb : ℝ :=
    if ear.enabled && !frdCompensated then earBoostTermDb ear freq else 0
  { impedanceMagnitude := complexMagnitude (electricalZ freq elements zma)
    impedancePhase := complexPhase (electricalZ freq elements zma)
    totalGainDb := electricalGainDb freq elements zma
      + voltageGainDb sourceVoltage + earBoostDb
    electricalPhaseDeg := complexPhase (electricalH freq elements zma) }

/-! ## Sweep aggregation stages -/

/-- The per-driver polarity contribution: a 180° phase offset when the
driver's polarity flag is set. -/
noncomputable def polarityPhaseDeg (polarity : Bool) : ℝ :=
  if polarity then 180 else 0

/-- The per-driver total acoustic phase: base acoustic phase from the FRD
series plus the crossover's electrical phase shift plus the polarity
offset. -/
noncomputable def finalDriverPhase (baseAcousticPhase elecPhaseDeg : ℝ)
    (polarity : Bool) : ℝ :=
  baseAcousticPhase + elecPhaseDeg + polarityPhaseDeg polarity

/-- The conversion of a driver's final SPL and phase into a complex
pressure value: `magnitude = 10^(SPL/20)`, `angle = phase` (degrees to
radians). -/
noncomputable def complexPressure (finalSpl phaseDeg : ℝ) : ComplexValue ℝ :=
  let pressureMag : ℝ := (10 : ℝ) ^ (finalSpl / 20)
  let phaseRad := phaseDeg * Real.pi / 180
  ⟨pressureMag * Real.cos phaseRad, pressureMag * Real.sin phaseRad⟩

/-- The acoustic summation stage of `runSimulation`: sum the complex
pressures, take the magnitude, and convert back to dB with the −200 dB
silence floor. -/
noncomputable def totalSplOfPressures
    (complexPressures : List (ComplexValue ℝ)) : ℝ :=
  let totalComplexPressure := complexPressures.foldl complexAdd ⟨0, 0⟩
  let totalPressureMag := complexMagnitude totalComplexPressure
  if EPSILON ℝ < totalPressureMag then 20 * Real.logb 10 totalPressureMag
  else -200

/-- The total-impedance finalization stage of `runSimulation`:
`Z_total = 1 / totalAdmittance` when at least one driver contributed an
admittance; the `1e9 Ω` open-circuit convention (with phase reported as
0) when drivers exist but none contributed; no report at all when there
are no drivers. -/
noncomputable def finalizeTotalImpedance (driversInParallel numDrivers : Nat)
    (totalAdmittance : ComplexValue ℝ) : Option (ℝ × ℝ) :=
  if 0 < driversInParallel then
    let Z_total := complexDivide ⟨1, 0⟩ totalAdmittance
    some (complexMagnitude Z_total, complexPhase Z_total)
  else if 0 < numDrivers then some (1e9, 0)
  else none

/-! ## Theorems about the complex kernel and the solver -/

/-- C2: `complexDivide(a, b)` with `|b|²` below the `1e-12` epsilon floor
returns the zero complex value `{0, 0}` (and, being a total function into
an exact field, never produces a `NaN`/`Infinity` component). -/
theorem complexDivide_guarded_zero {K : Type} [LinearOrderedField K]
    (a b : ComplexValue K)
    (h : |b.real * b.real + b.imag * b.imag| < EPSILON K) :
    complexDivide a b = ⟨0, 0⟩ := by
  simp only [complexDivide]
  rw [if_pos h]

/-- Witness for C2: dividing `3 + 4i` by the zero complex value hits the
epsilon guard and yields `{0, 0}`. -/
theorem complexDivide_guarded_zero_witness :
    |((0:ℚ) * 0 + 0 * 0)| < EPSILON ℚ ∧
      complexDivide (⟨3, 4⟩ : ComplexValue ℚ) ⟨0, 0⟩ = ⟨0, 0⟩ :=
  ⟨by norm_num [EPSILON],
   complexDivide_guarded_zero ⟨3, 4⟩ ⟨0, 0⟩ (by norm_num [EPSILON])⟩

/-- A parallel (shunt) element never changes the running transfer
function: folding `applyElement` over any all-parallel list preserves the
second state component. -/
theorem foldl_applyElement_parallel {K : Type} [LinearOrderedField K]
    (omega : K) :
    ∀ (l : List (CrossoverElement K)) (st : ComplexValue K × ComplexValue K),
      (∀ e ∈ l, e.series = false) →
      (l.foldl (applyElement omega) st).2 = st.2 := by
  intro l
  induction l with
  | nil => intro st _; rfl
  | cons e l ih =>
    intro st h
    have he : e.series = false := h e (List.mem_cons_self e l)
    rw [List.foldl_cons, ih _ (fun x hx => h x (List.mem_cons_of_mem e hx))]
    simp [applyElement, he]

/-- C8: for a chain containing only parallel elements, at every frequency
and driver impedance the solver's transfer function stays exactly `1`
(real part 1, imaginary part 0): parallel-only topologies never change
the driver voltage ratio. -/
theorem parallel_only_transfer_is_one {K : Type} [LinearOrderedField K]
    (omega : K) (elements : List (CrossoverElement K))
    (Zdriver : ComplexValue K)
    (h : ∀ e ∈ elements, e.series = false) :
    (crossoverZH omega elements Zdriver).2 = ⟨1, 0⟩ := by
  unfold crossoverZH
  exact foldl_applyElement_parallel omega _ _
    (fun e he => h e ((List.mem_insertionSort _).1 he))

/-- Witness for C8: a concrete chain of a parallel capacitor and a
parallel resistor leaves `H = 1` at `ω = 3`. -/
theorem parallel_only_transfer_is_one_witness :
    (crossoverZH (3 : ℚ)
        [⟨ElementKind.capacitor, 10, 1, 0, false, 1⟩,
         ⟨ElementKind.resistor, 8, 0, 0, false, 0⟩] ⟨8, 0⟩).2 = ⟨1, 0⟩ :=
  parallel_only_transfer_is_one 3 _ ⟨8, 0⟩ (by decide)

/-- C7: a chain of exactly one series resistor `Rs` against a purely
resistive driver impedance `Rd` reproduces the classical resistive
voltage divider `H = Rd / (Rs + Rd)` exactly. -/
theorem single_series_resistor_divider (omega Rs Rd : ℚ)
    (hRs : 0 ≤ Rs) (hRd : 1 / 10 ^ 6 ≤ Rd) :
    (crossoverZH omega
        [⟨ElementKind.resistor, Rs, 0, 0, true, 0⟩] ⟨Rd, 0⟩).2
      = ⟨Rd / (Rs + Rd), 0⟩ := by
  have hpos : (0:ℚ) < Rs + Rd := by
    have : (0:ℚ) < 1 / 10 ^ 6 := by norm_num
    linarith
  have hden : ¬ |(Rs + Rd) * (Rs + Rd) + 0 * 0| < EPSILON ℚ := by
    rw [not_lt, EPSILON]
    have h12 : (1:ℚ) / 10 ^ 12 ≤ (Rs + Rd) * (Rs + Rd) := by nlinarith
    calc (1:ℚ) / 10 ^ 12 ≤ (Rs + Rd) * (Rs + Rd) := h12
      _ = |(Rs + Rd) * (Rs + Rd) + 0 * 0| := by
          rw [mul_zero, add_zero, abs_of_nonneg (by positivity)]
  simp only [crossoverZH, sortDescendingByOrder, List.insertionSort,
    List.orderedInsert, List.foldl_cons, List.foldl_nil, applyElement,
    elementImpedance, complexAdd, complexMultiply, complexDivide, if_true]
  rw [if_neg (by simpa using hden)]
  refine congrArg₂ ComplexValue.mk ?_ ?_ <;> (field_simp; try ring)

/-- Witness for C7: with a 4 Ω series resistor and an 8 Ω resistive
driver the solver's transfer function is `8 / 12`. -/
theorem single_series_resistor_divider_witness :
    (crossoverZH (1 : ℚ)
        [⟨ElementKind.resistor, 4, 0, 0, true, 0⟩] ⟨8, 0⟩).2
      = ⟨8 / (4 + 8), 0⟩ :=
  single_series_resistor_divider 1 4 8 (by norm_num) (by norm_num)

/-- C1: the solver walks the chain nearest-to-driver first (descending
order key), and the order is load-bearing: there is a chain with one
series and one parallel element whose reversed (farthest-to-nearest)
processing yields a different total impedance and transfer function. -/
theorem traversal_order_load_bearing :
    ∃ (elements : List (CrossoverElement ℚ)) (omega : ℚ)
      (Zdriver : ComplexValue ℚ),
      (∃ e ∈ elements, e.series = true) ∧
      (∃ e ∈ elements, e.series = false) ∧
      crossoverZH omega elements Zdriver
        ≠ crossoverZHReversedOrder omega elements Zdriver := by
  refine ⟨[⟨ElementKind.resistor, 8, 0, 0, true, 1⟩,
           ⟨ElementKind.resistor, 8, 0, 0, false, 0⟩], 1, ⟨8, 0⟩,
          ?_, ?_, ?_⟩
  · exact ⟨_, List.mem_cons_self _ _, rfl⟩
  · exact ⟨_, List.mem_cons_of_mem _ (List.mem_cons_self _ _), rfl⟩
  · have h₁ : crossoverZH (1 : ℚ)
        [⟨ElementKind.resistor, 8, 0, 0, true, 1⟩,
         ⟨ElementKind.resistor, 8, 0, 0, false, 0⟩] ⟨8, 0⟩
        = (⟨16 / 3, 0⟩, ⟨1 / 2, 0⟩) := by
      norm_num [crossoverZH, sortDescendingByOrder, List.insertionSort,
        List.orderedInsert, applyElement, elementImpedance,
        parallelImpedance, complexAdd, complexMultiply, complexDivide,
        EPSILON, Prod.ext_iff, ComplexValue.mk.injEq]
    have h₂ : crossoverZHReversedOrder (1 : ℚ)
        [⟨ElementKind.resistor, 8, 0, 0, true, 1⟩,
         ⟨ElementKind.resistor, 8, 0, 0, false, 0⟩] ⟨8, 0⟩
        = (⟨12, 0⟩, ⟨1 / 3, 0⟩) := by
      norm_num [crossoverZHReversedOrder, List.insertionSort,
        List.orderedInsert, applyElement, elementImpedance,
        parallelImpedance, complexAdd, complexMultiply, complexDivide,
        EPSILON, Prod.ext_iff, ComplexValue.mk.injEq]
    rw [h₁, h₂]
    norm_num [Prod.ext_iff, ComplexValue.mk.injEq]

/-! ## Theorems about the interpolator -/

/-- Once the running lower marker is set, the bracket search never clears
it. -/
theorem bracketSearch_lower_isSome (t : ℚ) :
    ∀ (l : List DataPoint) (i : Nat) (x : Nat × DataPoint),
      (bracketSearch t l i (some x)).1.isSome := by
  intro l
  induction l with
  | nil => intro i x; rfl
  | cons p rest ih =>
    intro i x
    simp only [bracketSearch]
    by_cases hge : t ≤ p.freq
    · by_cases hle : p.freq ≤ t <;> simp [hle, hge]
    · by_cases hle : p.freq ≤ t <;> simp only [hle, hge, if_true, if_false] <;>
        exact ih _ _

/-- For non-empty data the bracket search cannot miss on both sides. -/
theorem bracketSearch_ne_none (t : ℚ) :
    ∀ (l : List DataPoint) (i : Nat), l ≠ [] →
      bracketSearch t l i none ≠ (none, none) := by
  intro l
  induction l with
  | nil => intro i h; exact absurd rfl h
  | cons p rest _ =>
    intro i _
    simp only [bracketSearch]
    by_cases hge : t ≤ p.freq
    · by_cases hle : p.freq ≤ t <;> simp [hle, hge]
    · have hle : p.freq ≤ t := le_of_not_le hge
      simp only [hle, hge, if_true, if_false]
      intro hcontra
      have h1 := bracketSearch_lower_isSome t rest (i + 1) (i, p)
      rw [congrArg Prod.fst hcontra] at h1
      exact Bool.noConfusion h1

/-- C10: the interpolator is total at its interface: it returns a value
exactly when the measurement series is non-null and non-empty (every
arithmetic path is guarded, so in exact arithmetic no `NaN`/`Infinity`
can be produced). -/
theorem interpolateFrequencyData_total (data : List DataPoint)
    (targetFreq : ℚ) (g : Getter) :
    (interpolateFrequencyData data targetFreq g).isSome ↔ data ≠ [] := by
  constructor
  · intro h hempty
    subst hempty
    simp [interpolateFrequencyData] at h
  · intro hne
    unfold interpolateFrequencyData
    rw [if_neg (by simpa [List.isEmpty_iff] using hne)]
    rcases hbr : bracketSearch targetFreq data 0 none with ⟨lw, up⟩
    cases lw with
    | none =>
      cases up with
      | none => exact absurd hbr (bracketSearch_ne_none targetFreq data 0 hne)
      | some u => obtain ⟨ui, upper⟩ := u; simp
    | some lo =>
      obtain ⟨li, lower⟩ := lo
      cases up with
      | none => simp
      | some u =>
        obtain ⟨ui, upper⟩ := u
        dsimp only
        repeat' split
        all_goals simp

/-- For a list that lies entirely below the target frequency, the bracket
search returns the last point as the lower bracket and no upper bracket. -/
theorem bracketSearch_all_below (t : ℚ) :
    ∀ (l : List DataPoint) (hne : l ≠ []) (i : Nat)
      (lw : Option (Nat × DataPoint)),
      (∀ q ∈ l, q.freq < t) →
      ∃ j, bracketSearch t l i lw = (some (j, l.getLast hne), none) := by
  intro l
  induction l with
  | nil => intro hne; exact absurd rfl hne
  | cons p rest ih =>
    intro hne i lw hall
    have hp : p.freq < t := hall p (List.mem_cons_self p rest)
    have h1 : ¬ t ≤ p.freq := not_le.mpr hp
    have h2 : p.freq ≤ t := le_of_lt hp
    simp only [bracketSearch, if_pos h2, if_neg h1]
    cases rest with
    | nil => exact ⟨i, by simp [bracketSearch]⟩
    | cons q rest' =>
      obtain ⟨j, hj⟩ := ih (List.cons_ne_nil q rest') (i + 1) (some (i, p))
        (fun x hx => hall x (List.mem_cons_of_mem p hx))
      refine ⟨j, ?_⟩
      rw [hj, List.getLast_cons (List.cons_ne_nil q rest')]

/-- In a frequency-sorted series every sample frequency is bounded by the
last sample's frequency. -/
theorem freq_le_getLast :
    ∀ (l : List DataPoint) (hne : l ≠ []),
      List.Pairwise (fun a b : DataPoint => a.freq ≤ b.freq) l →
      ∀ q ∈ l, q.freq ≤ (l.getLast hne).freq := by
  intro l
  induction l with
  | nil => intro hne; exact absurd rfl hne
  | cons p rest ih =>
    intro hne hpw q hq
    cases rest with
    | nil =>
      rw [List.mem_singleton] at hq
      subst hq
      exact le_refl _
    | cons r rest' =>
      rw [List.getLast_cons (List.cons_ne_nil r rest')]
      rcases List.mem_cons.mp hq with hq | hq
      · subst hq
        exact (List.pairwise_cons.mp hpw).1 _
          (List.getLast_mem (List.cons_ne_nil r rest'))
      · exact ih (List.cons_ne_nil r rest') (List.pairwise_cons.mp hpw).2 q hq

/-- C5: querying a non-empty frequency-sorted series below its minimum
frequency returns the first sample's value, and querying above its
maximum frequency returns the last sample's value — no extrapolated
slope or roll-off in either direction. -/
theorem interpolate_out_of_range (p : DataPoint) (rest : List DataPoint)
    (hsorted : List.Pairwise (fun a b : DataPoint => a.freq ≤ b.freq)
      (p :: rest))
    (targetFreq : ℚ) (g : Getter) :
    (targetFreq < p.freq →
      interpolateFrequencyData (p :: rest) targetFreq g
        = some (selectValue g p)) ∧
    (((p :: rest).getLast (List.cons_ne_nil p rest)).freq < targetFreq →
      interpolateFrequencyData (p :: rest) targetFreq g
        = some (selectValue g ((p :: rest).getLast (List.cons_ne_nil p rest)))) := by
  constructor
  · intro hlt
    have hbr : bracketSearch targetFreq (p :: rest) 0 none
        = (none, some (0, p)) := by
      simp only [bracketSearch]
      rw [if_neg (not_le.mpr hlt), if_pos (le_of_lt hlt)]
    unfold interpolateFrequencyData
    rw [if_neg (by simp), hbr]
  · intro hgt
    have hall : ∀ q ∈ (p :: rest), q.freq < targetFreq := fun q hq =>
      lt_of_le_of_lt
        (freq_le_getLast (p :: rest) (List.cons_ne_nil p rest) hsorted q hq)
        hgt
    obtain ⟨j, hj⟩ := bracketSearch_all_below targetFreq (p :: rest)
      (List.cons_ne_nil p rest) 0 none hall
    unfold interpolateFrequencyData
    rw [if_neg (by simp), hj]

/-- Witness for C5: on the series `{100 Hz ↦ 90 dB, 200 Hz ↦ 95 dB}` a
query at 50 Hz returns 90 and a query at 300 Hz returns 95. -/
theorem interpolate_out_of_range_witness :
    interpolateFrequencyData [⟨100, 90, 0, 0⟩, ⟨200, 95, 0, 0⟩] 50
        Getter.spl = some 90 ∧
    interpolateFrequencyData [⟨100, 90, 0, 0⟩, ⟨200, 95, 0, 0⟩] 300
        Getter.spl = some 95 := by
  constructor
  · have h := (interpolate_out_of_range ⟨100, 90, 0, 0⟩ [⟨200, 95, 0, 0⟩]
      (by norm_num [List.pairwise_cons]) 50 Getter.spl).1 (by norm_num)
    simpa [selectValue] using h
  · have h := (interpolate_out_of_range ⟨100, 90, 0, 0⟩ [⟨200, 95, 0, 0⟩]
      (by norm_num [List.pairwise_cons]) 300 Getter.spl).2
      (by norm_num [List.getLast])
    simpa [selectValue, List.getLast] using h

/-- C4: the value-domain interpolation the code actually performs is
linear, not logarithmic.  On the series `{100 Hz ↦ 1, 10000 Hz ↦ 100}`
at 1000 Hz (log-frequency midpoint, `t = 1/2`) the code returns the
linear value `50.5`, while the specified log-of-value formula
`10^(log10(v_lo) + t·(log10(v_hi) − log10(v_lo)))` yields `10`: the
source's guard `getValue === ((p) => p.spl)` compares function references
and is always false, so its log-domain branch is dead code. -/
theorem value_interpolation_linear_not_log :
    interpolateFrequencyData [⟨100, 1, 0, 0⟩, ⟨10000, 100, 0, 0⟩] 1000
        Getter.spl = some (101 / 2) ∧
    (10 : ℝ) ^ (Real.logb 10 (1 : ℝ) +
        (Real.logb 10 (100 : ℝ) - Real.logb 10 (1 : ℝ)) *
          ((Real.logb 10 (1000 : ℝ) - Real.logb 10 (100 : ℝ)) /
           (Real.logb 10 (10000 : ℝ) - Real.logb 10 (100 : ℝ)))) = 10 ∧
    (101 : ℝ) / 2 ≠ 10 := by
  have hten : (1 : ℝ) < 10 := by norm_num
  have lpow : ∀ n : ℕ, Real.logb 10 ((10 : ℝ) ^ n) = n := by
    intro n
    rw [Real.logb_pow, Real.logb_self_eq_one hten]
    ring
  have l2 : Real.logb 10 (100 : ℝ) = 2 := by
    have h : (100 : ℝ) = (10 : ℝ) ^ (2 : ℕ) := by norm_num
    rw [h, lpow]; norm_num
  have l3 : Real.logb 10 (1000 : ℝ) = 3 := by
    have h : (1000 : ℝ) = (10 : ℝ) ^ (3 : ℕ) := by norm_num
    rw [h, lpow]; norm_num
  have l4 : Real.logb 10 (10000 : ℝ) = 4 := by
    have h : (10000 : ℝ) = (10 : ℝ) ^ (4 : ℕ) := by norm_num
    rw [h, lpow]; norm_num
  refine ⟨?_, ?_, by norm_num⟩
  · have hbr : bracketSearch 1000 [⟨100, 1, 0, 0⟩, ⟨10000, 100, 0, 0⟩] 0 none
        = (some (0, ⟨100, 1, 0, 0⟩), some (1, ⟨10000, 100, 0, 0⟩)) := by
      simp only [bracketSearch]
      norm_num
    unfold interpolateFrequencyData
    rw [if_neg (by simp), hbr]
    dsimp only [selectValue, isSplOrImpedanceGetter]
    rw [if_neg (by norm_num), if_neg (by norm_num [EPSILON])]
    push_cast
    rw [l2, l4, l3]
    rw [if_neg (by norm_num [EPSILON])]
    norm_num
  · rw [l2, l3, l4, Real.logb_one]
    norm_num

/-! ## Theorems about the gain assembly and the sweep stages -/

/-- C3: the acoustic ear-coupler gain term is added to the driver's total
gain if and only if the ear simulator is enabled and the driver's
response is not flagged as already including the coupler; in every other
case the acoustic contribution to the total gain is exactly zero. -/
theorem ear_gain_added_iff_enabled_and_uncompensated (freq : ℚ)
    (elements : List (CrossoverElement ℝ)) (zma : Option (List DataPoint))
    (sourceVoltage : ℝ) (frdCompensated : Bool) (ear : EarSimulatorConfig) :
    (ear.enabled = true → frdCompensated = false →
      (calculateCrossoverImpedanceAndTransfer freq elements zma
          sourceVoltage frdCompensated ear).totalGainDb
        = electricalGainDb freq elements zma + voltageGainDb sourceVoltage
          + earBoostTermDb ear freq) ∧
    (ear.enabled = false ∨ frdCompensated = true →
      (calculateCrossoverImpedanceAndTransfer freq elements zma
          sourceVoltage frdCompensated ear).totalGainDb
        = electricalGainDb freq elements zma + voltageGainDb sourceVoltage) := by
  constructor
  · intro h1 h2
    simp [calculateCrossoverImpedanceAndTransfer, h1, h2]
  · intro h
    rcases h with h | h <;>
      simp [calculateCrossoverImpedanceAndTransfer, h]

/-- Witness for C3: with the simulator enabled and an uncompensated
driver the ear term is present; with the response flagged as compensated
it is absent. -/
theorem ear_gain_added_iff_enabled_and_uncompensated_witness :
    (calculateCrossoverImpedanceAndTransfer 1000 [] none 1 false
        ⟨true, 1, 1.2, 1, 0⟩).totalGainDb
      = electricalGainDb 1000 [] none + voltageGainDb 1
        + earBoostTermDb ⟨true, 1, 1.2, 1, 0⟩ 1000 ∧
    (calculateCrossoverImpedanceAndTransfer 1000 [] none 1 true
        ⟨true, 1, 1.2, 1, 0⟩).totalGainDb
      = electricalGainDb 1000 [] none + voltageGainDb 1 :=
  ⟨(ear_gain_added_iff_enabled_and_uncompensated 1000 [] none 1 false
      ⟨true, 1, 1.2, 1, 0⟩).1 rfl rfl,
   (ear_gain_added_iff_enabled_and_uncompensated 1000 [] none 1 true
      ⟨true, 1, 1.2, 1, 0⟩).2 (Or.inr rfl)⟩

/-- C6: two drivers with identical final SPL and identical phase but
opposite polarity cancel to the −200 dB silence floor, while the same two
drivers with identical polarity sum to the single-driver SPL plus
`20·log10(2)` (≈ 6.02 dB). -/
theorem opposite_polarity_cancels_same_polarity_doubles
    (finalSpl basePhase elecPhase : ℝ) (hspl : (-200 : ℝ) ≤ finalSpl) :
    totalSplOfPressures
        [complexPressure finalSpl (finalDriverPhase basePhase elecPhase false),
         complexPressure finalSpl (finalDriverPhase basePhase elecPhase true)]
      = -200 ∧
    totalSplOfPressures
        [complexPressure finalSpl (finalDriverPhase basePhase elecPhase false),
         complexPressure finalSpl (finalDriverPhase basePhase elecPhase false)]
      = finalSpl + 20 * Real.logb 10 2 := by
  have hm : (0 : ℝ) < (10 : ℝ) ^ (finalSpl / 20) :=
    Real.rpow_pos_of_pos (by norm_num) _
  constructor
  · have hr : finalDriverPhase basePhase elecPhase true * Real.pi / 180
        = finalDriverPhase basePhase elecPhase false * Real.pi / 180
          + Real.pi := by
      simp [finalDriverPhase, polarityPhaseDeg]
      ring
    have hsum :
        [complexPressure finalSpl (finalDriverPhase basePhase elecPhase false),
         complexPressure finalSpl
           (finalDriverPhase basePhase elecPhase true)].foldl
          complexAdd ⟨0, 0⟩ = ⟨0, 0⟩ := by
      simp only [List.foldl_cons, List.foldl_nil, complexPressure, complexAdd]
      rw [hr, Real.cos_add_pi, Real.sin_add_pi]
      apply congrArg₂ ComplexValue.mk <;> ring
    simp only [totalSplOfPressures]
    rw [hsum]
    norm_num [complexMagnitude, EPSILON]
  · have h2m : EPSILON ℝ < 2 * ((10 : ℝ) ^ (finalSpl / 20)) := by
      have h1 : (-(10 : ℝ)) ≤ finalSpl / 20 := by linarith
      have h2 : (10 : ℝ) ^ (-(10 : ℝ)) ≤ (10 : ℝ) ^ (finalSpl / 20) :=
        (Real.rpow_le_rpow_left_iff (by norm_num)).mpr h1
      have h3 : (10 : ℝ) ^ (-(10 : ℝ)) = ((10 : ℝ) ^ (10 : ℕ))⁻¹ := by
        rw [Real.rpow_neg (by norm_num)]
        norm_num [← Real.rpow_natCast]
      rw [h3] at h2
      have h4 : EPSILON ℝ < 2 * ((10 : ℝ) ^ (10 : ℕ))⁻¹ := by
        norm_num [EPSILON]
      linarith
    have hsum :
        [complexPressure finalSpl (finalDriverPhase basePhase elecPhase false),
         complexPressure finalSpl
           (finalDriverPhase basePhase elecPhase false)].foldl
          complexAdd ⟨0, 0⟩
        = ⟨2 * (((10 : ℝ) ^ (finalSpl / 20)) * Real.cos
              (finalDriverPhase basePhase elecPhase false * Real.pi / 180)),
           2 * (((10 : ℝ) ^ (finalSpl / 20)) * Real.sin
              (finalDriverPhase basePhase elecPhase false * Real.pi / 180))⟩ := by
      simp only [List.foldl_cons, List.foldl_nil, complexPressure, complexAdd]
      apply congrArg₂ ComplexValue.mk <;> ring
    have hmag : complexMagnitude
        ⟨2 * (((10 : ℝ) ^ (finalSpl / 20)) * Real.cos
            (finalDriverPhase basePhase elecPhase false * Real.pi / 180)),
         2 * (((10 : ℝ) ^ (finalSpl / 20)) * Real.sin
            (finalDriverPhase basePhase elecPhase false * Real.pi / 180))⟩
        = 2 * ((10 : ℝ) ^ (finalSpl / 20)) := by
      simp only [complexMagnitude]
      have hcs := Real.sin_sq_add_cos_sq
        (finalDriverPhase basePhase elecPhase false * Real.pi / 180)
      have hsq : 2 * (((10 : ℝ) ^ (finalSpl / 20)) * Real.cos
            (finalDriverPhase basePhase elecPhase false * Real.pi / 180))
          * (2 * (((10 : ℝ) ^ (finalSpl / 20)) * Real.cos
            (finalDriverPhase basePhase elecPhase false * Real.pi / 180)))
          + 2 * (((10 : ℝ) ^ (finalSpl / 20)) * Real.sin
            (finalDriverPhase basePhase elecPhase false * Real.pi / 180))
          * (2 * (((10 : ℝ) ^ (finalSpl / 20)) * Real.sin
            (finalDriverPhase basePhase elecPhase false * Real.pi / 180)))
          = (2 * ((10 : ℝ) ^ (finalSpl / 20))) ^ 2 := by
        nlinarith [hcs]
      rw [hsq, Real.sqrt_sq (by positivity)]
    simp only [totalSplOfPressures]
    rw [hsum, hmag, if_pos h2m,
      Real.logb_mul (by norm_num) (ne_of_gt hm),
      Real.logb_rpow (by norm_num) (by norm_num)]
    ring

/-- Witness for C6: at 90 dB the out-of-polarity pair sums to the floor
and the in-polarity pair to `90 + 20·log10 2`. -/
theorem opposite_polarity_cancels_same_polarity_doubles_witness :
    totalSplOfPressures
        [complexPressure 90 (finalDriverPhase 0 0 false),
         complexPressure 90 (finalDriverPhase 0 0 true)] = -200 ∧
    totalSplOfPressures
        [complexPressure 90 (finalDriverPhase 0 0 false),
         complexPressure 90 (finalDriverPhase 0 0 false)]
      = 90 + 20 * Real.logb 10 2 :=
  opposite_polarity_cancels_same_polarity_doubles 90 0 0 (by norm_num)

/-- C9: the total system impedance is the reciprocal of the summed
per-driver admittances whenever at least one driver contributed an
admittance; when drivers exist but none contributed, the point reports
the 1e9 Ω open-load convention instead of failing. -/
theorem total_impedance_reciprocal_or_open
    (driversInParallel numDrivers : Nat) (totalAdmittance : ComplexValue ℝ) :
    (0 < driversInParallel →
      finalizeTotalImpedance driversInParallel numDrivers totalAdmittance
        = some (complexMagnitude (complexDivide ⟨1, 0⟩ totalAdmittance),
                complexPhase (complexDivide ⟨1, 0⟩ totalAdmittance))) ∧
    (driversInParallel = 0 → 0 < numDrivers →
      finalizeTotalImpedance driversInParallel numDrivers totalAdmittance
        = some (1e9, 0)) := by
  constructor
  · intro h
    simp [finalizeTotalImpedance, h]
  · intro h1 h2
    simp [finalizeTotalImpedance, h1, h2]

/-- Witness for C9: one contributing driver yields the reciprocal
admittance; two drivers with no contribution yield the 1e9 Ω report. -/
theorem total_impedance_reciprocal_or_open_witness :
    finalizeTotalImpedance 1 1 ⟨1, 0⟩
      = some (complexMagnitude (complexDivide ⟨1, 0⟩ ⟨1, 0⟩),
              complexPhase (complexDivide ⟨1, 0⟩ ⟨1, 0⟩)) ∧
    finalizeTotalImpedance 0 2 ⟨0, 0⟩ = some (1e9, 0) :=
  ⟨(total_impedance_reciprocal_or_open 1 1 ⟨1, 0⟩).1 (by norm_num),
   (total_impedance_reciprocal_or_open 0 2 ⟨0, 0⟩).2 rfl (by norm_num)⟩

end IEMSim
